import Mathlib

/-!
Verification of the G-code toolpath interpreter
(`dt_3d_printer/gcode_processor/gcode_parser.py`).

Python strings are modelled as `List Char`; Python 64-bit floats are
modelled as exact rationals (`ℚ`): every numeral the program parses is a
plain decimal numeral, which converts to `ℚ` exactly, and the only
arithmetic performed on axis values is addition and equality comparison.
Python dicts are modelled as insertion-ordered association lists where an
update to an existing key replaces the value in place and a new key is
appended at the end, exactly the observable insertion-order behaviour of
CPython dicts.  Fallible operations (`float(...)` on a captured token,
list indexing in the layer-marker handler) return `Option`/`Except` so
that the error paths of the source are represented.
-/

/-- Characters stripped by Python `str.strip()` (the ASCII whitespace
subset; the program never feeds it the rarer Unicode space characters). -/
def pySpace (c : Char) : Bool :=
  c = ' ' || c = '\t' || c = '\n' || c = '\r' || c = '\x0b' || c = '\x0c'

/-- Python `str.strip()`: drop whitespace from both ends. -/
def pyStrip (cs : List Char) : List Char :=
  ((cs.dropWhile pySpace).reverse.dropWhile pySpace).reverse

/-- Python `str.startswith(pre)`. -/
def pyStartswith (cs pre : List Char) : Bool :=
  cs.take pre.length == pre

/-- Python `str.split(sep)` for a one-character separator: split on every
occurrence, keeping empty fields.  `splitChar sep [] = [[]]`, matching
Python, whose `"".split(sep)` is `[""]`. -/
def splitChar (sep : Char) : List Char → List (List Char)
  | [] => [[]]
  | c :: rest =>
    match splitChar sep rest with
    | [] => [[]]
    | g :: gs => if c = sep then [] :: g :: gs else (c :: g) :: gs

/-- Python `str.split(sep, 1)` for a one-character separator: split at
the first occurrence only. -/
def split1 (sep : Char) : List Char → List (List Char)
  | [] => [[]]
  | c :: rest =>
    if c = sep then [[], rest]
    else
      match split1 sep rest with
      | [] => [[c]]
      | g :: gs => (c :: g) :: gs

/-- Numeric value of a list of ASCII digits (most significant first). -/
def natOfDigits (cs : List Char) : ℕ :=
  cs.foldl (fun a c => a * 10 + (c.toNat - 48)) 0

/-- Digits of a Python `int()` literal after the leading digit: a run of
digits in which a single underscore may stand between two digits
(CPython accepts `1_0`), accumulating the value. -/
def digitsVal : List Char → ℕ → Option ℕ
  | [], acc => some acc
  | '_' :: c :: rest, acc =>
    if c.isDigit then digitsVal rest (acc * 10 + (c.toNat - 48)) else none
  | c :: rest, acc =>
    if c.isDigit then digitsVal rest (acc * 10 + (c.toNat - 48)) else none

/-- Python `int(s)` on a string: surrounding whitespace is stripped, an
optional sign is followed by at least one ASCII digit, with single
underscores permitted between digits.  (Non-ASCII digit support of
CPython is not modelled; the program only meets ASCII input.)  `none`
models the `ValueError` that the layer-marker handler catches. -/
def pyInt? (cs0 : List Char) : Option Int :=
  match pyStrip cs0 with
  | '-' :: c :: rest =>
    if c.isDigit then (digitsVal rest (c.toNat - 48)).map (fun n => -(n : Int)) else none
  | '+' :: c :: rest =>
    if c.isDigit then (digitsVal rest (c.toNat - 48)).map (fun n => (n : Int)) else none
  | c :: rest =>
    if c.isDigit then (digitsVal rest (c.toNat - 48)).map (fun n => (n : Int)) else none
  | [] => none

/-- Split an optional leading sign character off a numeral body. -/
def splitSign (cs : List Char) : List Char × List Char :=
  match cs with
  | c :: r => if c = '+' || c = '-' then ([c], r) else ([], cs)
  | [] => ([], [])

/-- Python `float(s)` restricted to the plain-decimal sublanguage
`sign? (digits | digits "." digits? | digits? "." digits)` — the only
shape the program ever feeds it, because the parameter scanner captures
exactly such tokens.  Exponents, `inf`/`nan` and literal underscores,
which `float` would also accept, never reach this call and are not
modelled.  The value is exact as a rational.  `none` models the
`ValueError` raised on any other string. -/
def pyFloat? (cs : List Char) : Option ℚ :=
  let s := splitSign cs
  let ip := s.2.takeWhile Char.isDigit
  match s.2.dropWhile Char.isDigit with
  | [] =>
    if ip.isEmpty then none
    else some (mkRat (if s.1 == ['-'] then -(natOfDigits ip : ℤ) else (natOfDigits ip : ℤ)) 1)
  | '.' :: rest2 =>
    let fp := rest2.takeWhile Char.isDigit
    if (rest2.dropWhile Char.isDigit).isEmpty && !(ip.isEmpty && fp.isEmpty) then
      let n : ℕ := natOfDigits ip * 10 ^ fp.length + natOfDigits fp
      some (mkRat (if s.1 == ['-'] then -(n : ℤ) else (n : ℤ)) (10 ^ fp.length))
    else none
  | _ => none

/-- The numeral of the scanning pattern `[-+]?[0-9]*\.?[0-9]+` as matched
(greedily, with backtracking) immediately after an axis letter: given the
text after the letter, return the captured characters and the remaining
text, or `none` when no numeral starts here.  The backtracking case of
the pattern (a dot with no digit after it is given back, as in `X5.a`,
which captures `5`) is the middle branch. -/
def numTail (sg body : List Char) : Option (List Char × List Char) :=
  match body.dropWhile Char.isDigit with
  | '.' :: cs3 =>
    if (cs3.takeWhile Char.isDigit).isEmpty then
      if (body.takeWhile Char.isDigit).isEmpty then none
      else some (sg ++ body.takeWhile Char.isDigit, body.dropWhile Char.isDigit)
    else
      some (sg ++ body.takeWhile Char.isDigit ++ '.' :: cs3.takeWhile Char.isDigit,
            cs3.dropWhile Char.isDigit)
  | _ =>
    if (body.takeWhile Char.isDigit).isEmpty then none
    else some (sg ++ body.takeWhile Char.isDigit, body.dropWhile Char.isDigit)

/-- Try to match the numeral part of the scanning pattern at the head of
`cs`: optional sign, then digits with an optional fractional part. -/
def numAt (cs : List Char) : Option (List Char × List Char) :=
  numTail (splitSign cs).1 (splitSign cs).2

/-- The six letters of the scanning pattern `([XYZEFS])`. -/
def axisChars : List Char := ['X', 'Y', 'Z', 'E', 'F', 'S']

/-- `re.findall` of the pattern `([XYZEFS])([-+]?[0-9]*\.?[0-9]+)`:
left-to-right, non-overlapping scan; at each position a match is
attempted, and on failure the scan advances one character.  The fuel
argument bounds the recursion; every step consumes at least one
character, so fuel equal to the input length is always sufficient. -/
def findAllFuel : ℕ → List Char → List (Char × List Char)
  | 0, _ => []
  | _ + 1, [] => []
  | fuel + 1, c :: rest =>
    if c ∈ axisChars then
      match numAt rest with
      | some (cap, rest') => (c, cap) :: findAllFuel fuel rest'
      | none => findAllFuel fuel rest
    else findAllFuel fuel rest

/-- All matches of the scanning pattern in a command text. -/
def findAll (cs : List Char) : List (Char × List Char) :=
  findAllFuel cs.length cs

/-- First value stored under a key in an association list (Python dict
lookup; keys are unique in lists built by `alSet`). -/
def alGet? {κ α : Type} [DecidableEq κ] : List (κ × α) → κ → Option α
  | [], _ => none
  | (k, v) :: rest, key => if k = key then some v else alGet? rest key

/-- Python dict assignment: replace in place when the key exists, append
a fresh entry otherwise. -/
def alSet {κ α : Type} [DecidableEq κ] : List (κ × α) → κ → α → List (κ × α)
  | [], key, val => [(key, val)]
  | (k, v) :: rest, key, val =>
    if k = key then (k, val) :: rest else (k, v) :: alSet rest key val

/-- The five named axes of `current_position`, all exact rationals
standing for the Python floats. -/
structure Pos where
  X : ℚ
  Y : ℚ
  Z : ℚ
  E : ℚ
  F : ℚ
deriving DecidableEq

/-- The interpreter state: `current_position`, the two mode flags,
`current_layer`, and the accumulated `parsed_data` (its `"metadata"` and
`"layers"` entries, flattened into two fields). -/
structure MachineState where
  current_position : Pos
  absolute_positioning : Bool
  absolute_extrusion : Bool
  current_layer : Int
  metadata : List (List Char × List Char)
  layers : List (Int × List Pos)
deriving DecidableEq

/-- The state a fresh `GCodeParser()` starts from. -/
def initState : MachineState :=
  { current_position := ⟨0, 0, 0, 0, 0⟩
    absolute_positioning := true
    absolute_extrusion := true
    current_layer := 0
    metadata := []
    layers := [] }

/-- An exception escaping a per-line handler: the `ValueError` of a
failed `float(...)` conversion, or the `IndexError` of an out-of-range
list index in the layer-marker handler. -/
inductive HandlerErr where
  | floatConvErr (tok : List Char)
  | indexErr
deriving DecidableEq

/-- An error aborting `parse_gcode`: the `ValueError` on empty input, or
the `RuntimeError` wrapping a handler exception together with the 1-based
line number and the line text current at the raise site. -/
inductive GErr where
  | emptyInput
  | lineError (lineNum : ℕ) (lineText : List Char) (e : HandlerErr)
deriving DecidableEq

/-- Read one named axis of a position record. -/
def getAxis (p : Pos) (a : Char) : ℚ :=
  if a = 'X' then p.X
  else if a = 'Y' then p.Y
  else if a = 'Z' then p.Z
  else if a = 'E' then p.E
  else if a = 'F' then p.F
  else 0

/-- Write one named axis of a position record (identity on letters that
are not axes of `current_position`). -/
def setAxis (p : Pos) (a : Char) (v : ℚ) : Pos :=
  if a = 'X' then { p with X := v }
  else if a = 'Y' then { p with Y := v }
  else if a = 'Z' then { p with Z := v }
  else if a = 'E' then { p with E := v }
  else if a = 'F' then { p with F := v }
  else p

/-- The dict comprehension of `_parse_params`, taking the matches in
scan order: each conversion that succeeds is stored (later duplicate
letters overwrite earlier ones), and a failed `float(...)` raises. -/
def paramsLoop : List (Char × List Char) → List (Char × ℚ) → Except HandlerErr (List (Char × ℚ))
  | [], m => Except.ok m
  | q :: t, m =>
    match pyFloat? q.2 with
    | some v => paramsLoop t (alSet m q.1 v)
    | none => Except.error (HandlerErr.floatConvErr q.2)

/-- `_parse_params`: run the scan and convert every captured token with
`float(...)`, building the axis-to-value dict. -/
def _parse_params (cmd : List Char) : Except HandlerErr (List (Char × ℚ)) :=
  paramsLoop (findAll cmd) []

/-- The keys present in `current_position` (the membership test of
`_process_set_position`; the scanned letter `S` is not among them). -/
def posKeys : List Char := ['X', 'Y', 'Z', 'E', 'F']

/-- The axes the movement loop iterates over, in source order. -/
def moveKeys : List Char := ['X', 'Y', 'Z', 'E']

/-- The unconditional feed-rate update at the top of
`_process_movement`: `if "F" in params: current_position["F"] = params["F"]`. -/
def applyF (ps : List (Char × ℚ)) (p : Pos) : Pos :=
  match alGet? ps 'F' with
  | some v => { p with F := v }
  | none => p

/-- One iteration of the movement loop: an axis present in the params is
set absolutely when `absolute_positioning or (axis == "E" and
absolute_extrusion)` holds, and incremented otherwise. -/
def moveAxis (st : MachineState) (ps : List (Char × ℚ)) (p : Pos) (a : Char) : Pos :=
  match alGet? ps a with
  | none => p
  | some v =>
    if st.absolute_positioning || (a == 'E' && st.absolute_extrusion) then setAxis p a v
    else setAxis p a (getAxis p a + v)

/-- Create the (possibly empty) entry for a layer key if it is absent:
`if layer not in layers: layers[layer] = []`. -/
def ensureLayer (layers : List (Int × List Pos)) (k : Int) : List (Int × List Pos) :=
  if (alGet? layers k).isSome then layers else alSet layers k []

/-- Ensure the layer entry exists, then append one point to it. -/
def appendPoint (layers : List (Int × List Pos)) (k : Int) (p : Pos) : List (Int × List Pos) :=
  alSet (ensureLayer layers k) k ((alGet? (ensureLayer layers k) k).getD [] ++ [p])

/-- The pure tail of `_process_movement` once the params dict is in
hand: update F, fold the movement loop over X, Y, Z, E, append a point
exactly when one of those four axes changed, and commit the new position
either way. -/
def movementResult (st : MachineState) (ps : List (Char × ℚ)) : MachineState :=
  let cur := applyF ps st.current_position
  let np := moveKeys.foldl (moveAxis st ps) cur
  if np.X ≠ cur.X ∨ np.Y ≠ cur.Y ∨ np.Z ≠ cur.Z ∨ np.E ≠ cur.E then
    { st with current_position := np
              layers := appendPoint st.layers st.current_layer np }
  else { st with current_position := np }

/-- `_process_movement` (G0/G1): extract params, then apply the pure
movement step. -/
def _process_movement (st : MachineState) (cmd : List Char) : Except HandlerErr MachineState :=
  (_parse_params cmd).map (movementResult st)

/-- The loop of `_process_set_position`: every param whose letter exists
in `current_position` overwrites that axis directly. -/
def setPosFold (ps : List (Char × ℚ)) (p : Pos) : Pos :=
  ps.foldl (fun acc q => if q.1 ∈ posKeys then setAxis acc q.1 q.2 else acc) p

/-- `_process_set_position` (G92): extract params and overwrite the
listed axes, with no point emitted and no mode consulted. -/
def _process_set_position (st : MachineState) (cmd : List Char) :
    Except HandlerErr MachineState :=
  (_parse_params cmd).map
    (fun ps => { st with current_position := setPosFold ps st.current_position })

/-- `_parse_comment`: a line whose stripped text begins with `;LAYER:`
parses the field between the first and second colon as the layer number
(`ValueError` recovered to layer 0) and ensures the layer entry exists;
otherwise a line containing a colon becomes a metadata entry, split once
at the first colon after the leading semicolons are stripped; anything
else is ignored.  The list index `[1]` is fallible in the source
(`IndexError` would escape the local `except ValueError`), so it is
modelled as an `Except`. -/
def _parse_comment (st : MachineState) (line : List Char) : Except HandlerErr MachineState :=
  if pyStartswith line [';', 'L', 'A', 'Y', 'E', 'R', ':'] then
    match (splitChar ':' line).get? 1 with
    | none => Except.error HandlerErr.indexErr
    | some seg =>
      let n := (pyInt? seg).getD 0
      Except.ok { st with current_layer := n, layers := ensureLayer st.layers n }
  else if ':' ∈ line then
    match split1 ':' (line.dropWhile (fun c => c == ';')) with
    | [k, v] =>
      Except.ok { st with metadata := alSet st.metadata (pyStrip k) (pyStrip v) }
    | _ => Except.ok st
  else Except.ok st

/-- `_process_command`: the dispatch chain of the source, in order —
four exact-match mode commands, the exact-match `G28` home, then the
prefix tests for G0/G1 and G92, and a silent no-op for everything
else. -/
def _process_command (st : MachineState) (cmd : List Char) : Except HandlerErr MachineState :=
  if cmd = ['G', '9', '0'] then Except.ok { st with absolute_positioning := true }
  else if cmd = ['G', '9', '1'] then Except.ok { st with absolute_positioning := false }
  else if cmd = ['M', '8', '2'] then Except.ok { st with absolute_extrusion := true }
  else if cmd = ['M', '8', '3'] then Except.ok { st with absolute_extrusion := false }
  else if cmd = ['G', '2', '8'] then
    Except.ok { st with current_position := { st.current_position with X := 0, Y := 0, Z := 0 } }
  else if pyStartswith cmd ['G', '0'] || pyStartswith cmd ['G', '1'] then
    _process_movement st cmd
  else if pyStartswith cmd ['G', '9', '2'] then _process_set_position st cmd
  else Except.ok st

/-- The enumerated line loop of `parse_gcode`: strip, skip blanks,
dispatch comment lines, strip inline comments, dispatch commands; any
handler exception is wrapped into the `RuntimeError` carrying the 1-based
line number and the line text as it stands at the raise site (already
stripped, and comment-stripped on the command path), and stops the
loop. -/
def processLines (st : MachineState) : List (List Char) → ℕ → Except GErr MachineState
  | [], _ => Except.ok st
  | line :: rest, n =>
    let l1 := pyStrip line
    if l1 = [] then processLines st rest (n + 1)
    else if pyStartswith l1 [';'] then
      match _parse_comment st l1 with
      | Except.ok st' => processLines st' rest (n + 1)
      | Except.error e => Except.error (GErr.lineError n l1 e)
    else
      let l2 := pyStrip ((splitChar ';' l1).headD [])
      if l2 = [] then processLines st rest (n + 1)
      else
        match _process_command st l2 with
        | Except.ok st' => processLines st' rest (n + 1)
        | Except.error e => Except.error (GErr.lineError n l2 e)

/-- `parse_gcode` run on a fresh parser instance: reject the empty
string (`if not gcode`), split on newlines, and process the lines in
order starting from line number 1. -/
def parse_gcode (gcode : List Char) : Except GErr MachineState :=
  if gcode = [] then Except.error GErr.emptyInput
  else processLines initState (splitChar '\n' gcode) 1

/-- The grammar of the claim for parameter values: a signed, optionally
fractional decimal numeral — an optional sign, then either a nonempty
digit run or a possibly empty digit run, a dot and a nonempty digit
run. -/
def signedDecimalB (cs : List Char) : Bool :=
  let body := (splitSign cs).2
  match body.dropWhile Char.isDigit with
  | [] => !(body.takeWhile Char.isDigit).isEmpty
  | '.' :: fp => !fp.isEmpty && fp.all Char.isDigit
  | _ => false

/-- Decidable equality of run results, so that concrete runs can be
checked by evaluation. -/
instance exceptDecEq {ε α : Type} [DecidableEq ε] [DecidableEq α] : DecidableEq (Except ε α)
  | Except.ok x, Except.ok y =>
    if h : x = y then isTrue (congrArg Except.ok h) else isFalse (fun hh => h (Except.ok.inj hh))
  | Except.ok _, Except.error _ => isFalse (fun hh => Except.noConfusion hh)
  | Except.error _, Except.ok _ => isFalse (fun hh => Except.noConfusion hh)
  | Except.error e, Except.error f =>
    if h : e = f then isTrue (congrArg Except.error h)
    else isFalse (fun hh => h (Except.error.inj hh))

/-- The input `M83`, `G90`, `G1 X10 E1`, `G1 X10 E1` (relative extrusion
under absolute positioning). -/
def sampleRelExtrusion : List Char :=
  ['M', '8', '3', '\n', 'G', '9', '0', '\n', 'G', '1', ' ', 'X', '1', '0', ' ', 'E', '1',
   '\n', 'G', '1', ' ', 'X', '1', '0', ' ', 'E', '1']

/-- The input `G1 F1200`, `G1 F1500` (feed-rate-only motion commands). -/
def sampleFOnly : List Char :=
  ['G', '1', ' ', 'F', '1', '2', '0', '0', '\n', 'G', '1', ' ', 'F', '1', '5', '0', '0']

/-- The input `G1 X5`, `G28 X0` (a home command carrying an axis
argument). -/
def sampleG28Args : List Char :=
  ['G', '1', ' ', 'X', '5', '\n', 'G', '2', '8', ' ', 'X', '0']

/-- The layer marker line `;LAYER:3:7`, whose text after the first colon
is `3:7` but whose field between the first two colons is `3`. -/
def sampleLayerTwoColons : List Char :=
  [';', 'L', 'A', 'Y', 'E', 'R', ':', '3', ':', '7']

/-- The layer marker line `;LAYER:42`. -/
def sampleLayerLine : List Char :=
  [';', 'L', 'A', 'Y', 'E', 'R', ':', '4', '2']

/-- The motion command `G1 X7`. -/
def sampleParamCmd : List Char :=
  ['G', '1', ' ', 'X', '7']

/-- The input `G92 X0 Y0`, `G1 X10`. -/
def sampleG92 : List Char :=
  ['G', '9', '2', ' ', 'X', '0', ' ', 'Y', '0', '\n', 'G', '1', ' ', 'X', '1', '0']

/-- The position-set command `G92 X5`. -/
def sampleG92Cmd : List Char :=
  ['G', '9', '2', ' ', 'X', '5']

/-!  ## Helper lemmas  -/

theorem mem_takeWhile_pred {α : Type} {p : α → Bool} :
    ∀ {l : List α} {a : α}, a ∈ l.takeWhile p → p a = true := by
  intro l
  induction l with
  | nil => intro a h; simp [List.takeWhile] at h
  | cons b t ih =>
    intro a h
    rw [List.takeWhile_cons] at h
    by_cases hb : p b = true
    · rw [if_pos hb] at h
      rcases List.mem_cons.1 h with rfl | h2
      · exact hb
      · exact ih h2
    · rw [if_neg hb] at h
      simp at h

theorem takeWhile_of_all {α : Type} {p : α → Bool} :
    ∀ {l : List α}, (∀ a ∈ l, p a = true) → l.takeWhile p = l := by
  intro l
  induction l with
  | nil => intro _; rfl
  | cons b t ih =>
    intro h
    rw [List.takeWhile_cons, if_pos (h b (List.mem_cons_self b t))]
    rw [ih (fun a ha => h a (List.mem_cons_of_mem b ha))]

theorem dropWhile_of_all {α : Type} {p : α → Bool} :
    ∀ {l : List α}, (∀ a ∈ l, p a = true) → l.dropWhile p = [] := by
  intro l
  induction l with
  | nil => intro _; rfl
  | cons b t ih =>
    intro h
    rw [List.dropWhile_cons, if_pos (h b (List.mem_cons_self b t))]
    exact ih (fun a ha => h a (List.mem_cons_of_mem b ha))

theorem takeWhile_append_stop {α : Type} {p : α → Bool} {x : α} (hx : p x = false) :
    ∀ {l t : List α}, (∀ a ∈ l, p a = true) → (l ++ x :: t).takeWhile p = l := by
  intro l
  induction l with
  | nil => intro t _; simp [List.takeWhile_cons, hx]
  | cons b bt ih =>
    intro t h
    rw [List.cons_append, List.takeWhile_cons, if_pos (h b (List.mem_cons_self b bt))]
    rw [ih (fun a ha => h a (List.mem_cons_of_mem b ha))]

theorem dropWhile_append_stop {α : Type} {p : α → Bool} {x : α} (hx : p x = false) :
    ∀ {l t : List α}, (∀ a ∈ l, p a = true) → (l ++ x :: t).dropWhile p = x :: t := by
  intro l
  induction l with
  | nil => intro t _; simp [List.dropWhile_cons, hx]
  | cons b bt ih =>
    intro t h
    rw [List.cons_append, List.dropWhile_cons, if_pos (h b (List.mem_cons_self b bt))]
    exact ih (fun a ha => h a (List.mem_cons_of_mem b ha))

theorem len_dropWhile_le {α : Type} {p : α → Bool} :
    ∀ (l : List α), (l.dropWhile p).length ≤ l.length := by
  intro l
  induction l with
  | nil => simp [List.dropWhile]
  | cons b t ih =>
    rw [List.dropWhile_cons]
    by_cases hb : p b = true
    · rw [if_pos hb]; exact Nat.le_succ_of_le ih
    · rw [if_neg hb]

theorem alGet?_alSet {κ α : Type} [DecidableEq κ] :
    ∀ (m : List (κ × α)) (k x : κ) (v : α),
      alGet? (alSet m k v) x = if x = k then some v else alGet? m x := by
  intro m
  induction m with
  | nil =>
    intro k x v
    simp only [alSet, alGet?]
    by_cases h : x = k
    · subst h; simp
    · simp [h, Ne.symm h]
  | cons q t ih =>
    intro k x v
    cases q with
    | mk q1 q2 =>
      simp only [alSet]
      by_cases hk : q1 = k
      · subst hk
        simp only [if_pos rfl, alGet?]
        by_cases hx : x = q1
        · subst hx; simp
        · simp [hx, Ne.symm hx]
      · simp only [if_neg hk, alGet?]
        by_cases hx : q1 = x
        · subst hx
          simp [hk]
        · simp only [if_neg hx]
          rw [ih k x v]

theorem splitChar_ne_nil (sep : Char) : ∀ (cs : List Char), splitChar sep cs ≠ [] := by
  intro cs
  induction cs with
  | nil => simp [splitChar]
  | cons c rest ih =>
    simp only [splitChar]
    cases h : splitChar sep rest with
    | nil => simp
    | cons g gs =>
      by_cases hc : c = sep
      · simp [hc]
      · simp [hc]

theorem splitChar_len_two {sep : Char} :
    ∀ {cs : List Char}, sep ∈ cs → 2 ≤ (splitChar sep cs).length := by
  intro cs
  induction cs with
  | nil => intro h; simp at h
  | cons c rest ih =>
    intro h
    simp only [splitChar]
    cases hs : splitChar sep rest with
    | nil => exact absurd hs (splitChar_ne_nil sep rest)
    | cons g gs =>
      by_cases hc : c = sep
      · simp [hc]
      · have hmem : sep ∈ rest := by
          rcases List.mem_cons.1 h with h1 | h2
          · exact absurd h1.symm hc
          · exact h2
        have h2 := ih hmem
        rw [hs] at h2
        simp only [if_neg hc, List.length_cons] at h2 ⊢
        omega

theorem splitSign_sign {c : Char} (h : c = '+' ∨ c = '-') (r : List Char) :
    splitSign (c :: r) = ([c], r) := by
  rcases h with rfl | rfl <;> simp [splitSign]

theorem splitSign_not_sign {cs : List Char}
    (h : ∀ c r, cs = c :: r → c ≠ '+' ∧ c ≠ '-') : splitSign cs = ([], cs) := by
  cases cs with
  | nil => rfl
  | cons c r =>
    obtain ⟨h1, h2⟩ := h c r rfl
    simp [splitSign, h1, h2]

theorem digit_ne_sign {c : Char} (h : c.isDigit = true) : c ≠ '+' ∧ c ≠ '-' := by
  constructor <;> rintro rfl <;> exact absurd h (by decide)

theorem splitSign_cap {sg w : List Char} (hsg : sg = [] ∨ sg = ['+'] ∨ sg = ['-'])
    (hw : ∀ c r, w = c :: r → c ≠ '+' ∧ c ≠ '-') : splitSign (sg ++ w) = (sg, w) := by
  rcases hsg with rfl | rfl | rfl
  · simpa using splitSign_not_sign hw
  · exact splitSign_sign (Or.inl rfl) w
  · exact splitSign_sign (Or.inr rfl) w

theorem capNoDot_valid {sg tw : List Char} (hsg : sg = [] ∨ sg = ['+'] ∨ sg = ['-'])
    (hne : tw ≠ []) (hall : ∀ c ∈ tw, c.isDigit = true) :
    signedDecimalB (sg ++ tw) = true ∧ (pyFloat? (sg ++ tw)).isSome = true := by
  have hw : ∀ c r, tw = c :: r → c ≠ '+' ∧ c ≠ '-' := by
    intro c r hcr
    exact digit_ne_sign (hall c (hcr ▸ List.mem_cons_self c r))
  have hss : splitSign (sg ++ tw) = (sg, tw) := splitSign_cap hsg hw
  have htw : tw.takeWhile Char.isDigit = tw := takeWhile_of_all hall
  have hdw : tw.dropWhile Char.isDigit = [] := dropWhile_of_all hall
  constructor
  · simp only [signedDecimalB, hss, hdw, htw]
    simp [hne]
  · simp only [pyFloat?, hss, hdw, htw]
    simp [hne]

theorem capDot_valid {sg ds1 ds2 : List Char} (hsg : sg = [] ∨ sg = ['+'] ∨ sg = ['-'])
    (h2ne : ds2 ≠ []) (h1all : ∀ c ∈ ds1, c.isDigit = true)
    (h2all : ∀ c ∈ ds2, c.isDigit = true) :
    signedDecimalB (sg ++ (ds1 ++ '.' :: ds2)) = true ∧
      (pyFloat? (sg ++ (ds1 ++ '.' :: ds2))).isSome = true := by
  have hdot : ('.' : Char).isDigit = false := by decide
  have hw : ∀ c r, ds1 ++ '.' :: ds2 = c :: r → c ≠ '+' ∧ c ≠ '-' := by
    intro c r hcr
    cases ds1 with
    | nil =>
      simp only [List.nil_append] at hcr
      rw [show c = '.' from (List.cons.inj hcr).1.symm]
      exact ⟨by decide, by decide⟩
    | cons d dt =>
      rw [List.cons_append] at hcr
      rw [show c = d from (List.cons.inj hcr).1.symm]
      exact digit_ne_sign (h1all d (List.mem_cons_self d dt))
  have hss : splitSign (sg ++ (ds1 ++ '.' :: ds2)) = (sg, ds1 ++ '.' :: ds2) :=
    splitSign_cap hsg hw
  have htw : (ds1 ++ '.' :: ds2).takeWhile Char.isDigit = ds1 :=
    takeWhile_append_stop hdot h1all
  have hdw : (ds1 ++ '.' :: ds2).dropWhile Char.isDigit = '.' :: ds2 :=
    dropWhile_append_stop hdot h1all
  have h2tw : ds2.takeWhile Char.isDigit = ds2 := takeWhile_of_all h2all
  have h2dw : ds2.dropWhile Char.isDigit = [] := dropWhile_of_all h2all
  constructor
  · simp only [signedDecimalB, hss, hdw, htw]
    simp [h2ne, List.all_eq_true.2 h2all]
  · simp only [pyFloat?, hss, hdw, htw, h2tw, h2dw]
    simp [h2ne]

theorem numTail_sound {sg body cap rest : List Char}
    (hsg : sg = [] ∨ sg = ['+'] ∨ sg = ['-'])
    (h : numTail sg body = some (cap, rest)) :
    signedDecimalB cap = true ∧ (pyFloat? cap).isSome = true := by
  have h1all : ∀ c ∈ body.takeWhile Char.isDigit, c.isDigit = true :=
    fun c hc => mem_takeWhile_pred hc
  unfold numTail at h
  split at h
  next cs3 heq =>
    split at h
    · split at h
      · exact absurd h (by simp)
      next hne =>
        injection h with h2
        injection h2 with hcap hrest
        subst hcap
        apply capNoDot_valid hsg _ h1all
        intro hnil
        rw [hnil] at hne
        exact hne rfl
    next hne2 =>
      injection h with h2
      injection h2 with hcap hrest
      rw [List.append_assoc] at hcap
      subst hcap
      apply capDot_valid hsg _ h1all (fun c hc => mem_takeWhile_pred hc)
      intro hnil
      rw [hnil] at hne2
      exact hne2 rfl
  next heq2 =>
    split at h
    · exact absurd h (by simp)
    next hne =>
      injection h with h2
      injection h2 with hcap hrest
      subst hcap
      apply capNoDot_valid hsg _ h1all
      intro hnil
      rw [hnil] at hne
      exact hne rfl

theorem numAt_sound {cs cap rest : List Char} (h : numAt cs = some (cap, rest)) :
    signedDecimalB cap = true ∧ (pyFloat? cap).isSome = true := by
  have hsg : (splitSign cs).1 = [] ∨ (splitSign cs).1 = ['+'] ∨ (splitSign cs).1 = ['-'] := by
    unfold splitSign
    cases cs with
    | nil => simp
    | cons c r =>
      by_cases h1 : c = '+'
      · simp [h1]
      · by_cases h2 : c = '-'
        · simp [h1, h2]
        · simp [h1, h2]
  exact numTail_sound hsg h

theorem findAllFuel_mem :
    ∀ (fuel : ℕ) (cs : List Char) (q : Char × List Char), q ∈ findAllFuel fuel cs →
      q.1 ∈ axisChars ∧ signedDecimalB q.2 = true ∧ (pyFloat? q.2).isSome = true := by
  intro fuel
  induction fuel with
  | zero => intro cs q h; simp [findAllFuel] at h
  | succ f ih =>
    intro cs q h
    cases cs with
    | nil => simp [findAllFuel] at h
    | cons c rest =>
      simp only [findAllFuel] at h
      by_cases hax : c ∈ axisChars
      · rw [if_pos hax] at h
        cases hnum : numAt rest with
        | none => rw [hnum] at h; exact ih rest q h
        | some p =>
          cases p with
          | mk cap rest' =>
            rw [hnum] at h
            simp only [] at h
            rcases List.mem_cons.1 h with rfl | h2
            · obtain ⟨hsd, hfl⟩ := numAt_sound hnum
              exact ⟨hax, hsd, hfl⟩
            · exact ih rest' q h2
      · rw [if_neg hax] at h; exact ih rest q h

theorem findAll_mem {cs : List Char} {q : Char × List Char} (h : q ∈ findAll cs) :
    q.1 ∈ axisChars ∧ signedDecimalB q.2 = true ∧ (pyFloat? q.2).isSome = true :=
  findAllFuel_mem cs.length cs q h

theorem paramsLoop_eval :
    ∀ (l : List (Char × List Char)) (m : List (Char × ℚ)),
      (∀ q ∈ l, (pyFloat? q.2).isSome = true) →
      paramsLoop l m =
        Except.ok (l.foldl (fun m q => alSet m q.1 ((pyFloat? q.2).getD 0)) m) := by
  intro l
  induction l with
  | nil => intro m _; rfl
  | cons q t ih =>
    intro m hall
    have hq := hall q (List.mem_cons_self q t)
    cases hv : pyFloat? q.2 with
    | none => rw [hv] at hq; exact absurd hq (by simp)
    | some v =>
      simp only [paramsLoop, hv, List.foldl_cons, Option.getD_some]
      exact ih (alSet m q.1 v) (fun r hr => hall r (List.mem_cons_of_mem q hr))

theorem parse_params_ok (cmd : List Char) :
    _parse_params cmd =
      Except.ok ((findAll cmd).foldl (fun m q => alSet m q.1 ((pyFloat? q.2).getD 0)) []) :=
  paramsLoop_eval (findAll cmd) [] (fun _ hq => (findAll_mem hq).2.2)

theorem foldl_alSet_find {β : Type} (f : Char × List Char → β) :
    ∀ (l : List (Char × List Char)) (m : List (Char × β)) (x : Char),
      alGet? (l.foldl (fun m q => alSet m q.1 (f q)) m) x =
        match l.reverse.find? (fun q => q.1 == x) with
        | some r => some (f r)
        | none => alGet? m x := by
  intro l
  induction l with
  | nil => intro m x; rfl
  | cons q t ih =>
    intro m x
    simp only [List.foldl_cons, List.reverse_cons]
    rw [ih, List.find?_append]
    cases hf : t.reverse.find? (fun q => q.1 == x) with
    | some r => simp [Option.or]
    | none =>
      simp only [Option.or]
      by_cases hqx : q.1 = x
      · simp [List.find?, hqx, alGet?_alSet]
      · have hb : (q.1 == x) = false := beq_eq_false_iff_ne.2 hqx
        simp [List.find?, hb, Ne.symm hqx, alGet?_alSet]

theorem getAxis_setAxis (p : Pos) (k a : Char) (v : ℚ) (hk : k ∈ posKeys)
    (ha : a ∈ posKeys) : getAxis (setAxis p k v) a = if k = a then v else getAxis p a := by
  fin_cases hk <;> fin_cases ha <;> rfl

theorem setAxis_F (p : Pos) (v : ℚ) : ∀ k ∈ moveKeys, (setAxis p k v).F = p.F := by
  intro k hk
  fin_cases hk <;> rfl

theorem moveAxis_F (st : MachineState) (ps : List (Char × ℚ)) (p : Pos) (k : Char)
    (hk : k ∈ moveKeys) : (moveAxis st ps p k).F = p.F := by
  unfold moveAxis
  cases alGet? ps k with
  | none => rfl
  | some v =>
    simp only []
    split
    · exact setAxis_F p v k hk
    · exact setAxis_F p _ k hk

theorem newPos_F (st : MachineState) (ps : List (Char × ℚ)) (p : Pos) :
    (moveKeys.foldl (moveAxis st ps) p).F = p.F := by
  simp only [moveKeys, List.foldl_cons, List.foldl_nil]
  rw [moveAxis_F _ _ _ 'E' (by decide), moveAxis_F _ _ _ 'Z' (by decide),
      moveAxis_F _ _ _ 'Y' (by decide), moveAxis_F _ _ _ 'X' (by decide)]

theorem applyF_X (ps : List (Char × ℚ)) (p : Pos) : (applyF ps p).X = p.X := by
  unfold applyF
  cases alGet? ps 'F' <;> rfl

theorem applyF_Y (ps : List (Char × ℚ)) (p : Pos) : (applyF ps p).Y = p.Y := by
  unfold applyF
  cases alGet? ps 'F' <;> rfl

theorem applyF_Z (ps : List (Char × ℚ)) (p : Pos) : (applyF ps p).Z = p.Z := by
  unfold applyF
  cases alGet? ps 'F' <;> rfl

theorem applyF_E (ps : List (Char × ℚ)) (p : Pos) : (applyF ps p).E = p.E := by
  unfold applyF
  cases alGet? ps 'F' <;> rfl

theorem applyF_F (ps : List (Char × ℚ)) (p : Pos) :
    (applyF ps p).F = (alGet? ps 'F').getD p.F := by
  unfold applyF
  cases alGet? ps 'F' <;> rfl

theorem setPosFold_char :
    ∀ (ps : List (Char × ℚ)) (p : Pos) (a : Char), a ∈ posKeys →
      getAxis (setPosFold ps p) a =
        match ps.reverse.find? (fun q => q.1 == a) with
        | some r => r.2
        | none => getAxis p a := by
  intro ps
  induction ps with
  | nil => intro p a _; rfl
  | cons q t ih =>
    intro p a ha
    rw [show setPosFold (q :: t) p
          = setPosFold t (if q.1 ∈ posKeys then setAxis p q.1 q.2 else p) from rfl]
    rw [ih (if q.1 ∈ posKeys then setAxis p q.1 q.2 else p) a ha]
    rw [List.reverse_cons, List.find?_append]
    cases hf : t.reverse.find? (fun q => q.1 == a) with
    | some r => simp [Option.or]
    | none =>
      simp only [Option.or]
      by_cases hqa : q.1 = a
      · subst hqa
        simp only [List.find?, beq_self_eq_true, if_pos ha]
        rw [getAxis_setAxis p q.1 q.1 q.2 ha ha, if_pos rfl]
      · have hb : (q.1 == a) = false := beq_eq_false_iff_ne.2 hqa
        simp only [List.find?, hb]
        by_cases hqp : q.1 ∈ posKeys
        · rw [if_pos hqp, getAxis_setAxis p q.1 a q.2 hqp ha, if_neg hqa]
        · rw [if_neg hqp]

theorem parse_comment_ok (st : MachineState) (l : List Char) :
    ∃ st', _parse_comment st l = Except.ok st' := by
  unfold _parse_comment
  by_cases hs : pyStartswith l [';', 'L', 'A', 'Y', 'E', 'R', ':'] = true
  · rw [if_pos hs]
    have htake : l.take 7 = [';', 'L', 'A', 'Y', 'E', 'R', ':'] := by
      unfold pyStartswith at hs
      simpa using hs
    have hmem : ':' ∈ l := by
      have h7 : ':' ∈ l.take 7 := by
        rw [htake]
        decide
      exact List.take_subset 7 l h7
    have hlen := splitChar_len_two hmem
    cases hg : (splitChar ':' l).get? 1 with
    | none =>
      rw [List.get?_eq_none] at hg
      omega
    | some seg =>
      exact ⟨_, rfl⟩
  · rw [if_neg hs]
    by_cases hc : ':' ∈ l
    · rw [if_pos hc]
      split
      · exact ⟨_, rfl⟩
      · exact ⟨_, rfl⟩
    · rw [if_neg hc]
      exact ⟨_, rfl⟩

theorem process_command_ok (st : MachineState) (cmd : List Char) :
    ∃ st', _process_command st cmd = Except.ok st' := by
  unfold _process_command
  by_cases h1 : cmd = ['G', '9', '0']
  · rw [if_pos h1]; exact ⟨_, rfl⟩
  rw [if_neg h1]
  by_cases h2 : cmd = ['G', '9', '1']
  · rw [if_pos h2]; exact ⟨_, rfl⟩
  rw [if_neg h2]
  by_cases h3 : cmd = ['M', '8', '2']
  · rw [if_pos h3]; exact ⟨_, rfl⟩
  rw [if_neg h3]
  by_cases h4 : cmd = ['M', '8', '3']
  · rw [if_pos h4]; exact ⟨_, rfl⟩
  rw [if_neg h4]
  by_cases h5 : cmd = ['G', '2', '8']
  · rw [if_pos h5]; exact ⟨_, rfl⟩
  rw [if_neg h5]
  by_cases h6 : (pyStartswith cmd ['G', '0'] || pyStartswith cmd ['G', '1']) = true
  · rw [if_pos h6]
    unfold _process_movement
    rw [parse_params_ok]
    exact ⟨_, rfl⟩
  rw [if_neg h6]
  by_cases h7 : pyStartswith cmd ['G', '9', '2'] = true
  · rw [if_pos h7]
    unfold _process_set_position
    rw [parse_params_ok]
    exact ⟨_, rfl⟩
  rw [if_neg h7]
  exact ⟨_, rfl⟩

theorem processLines_ok : ∀ (lines : List (List Char)) (st : MachineState) (n : ℕ),
    ∃ st', processLines st lines n = Except.ok st' := by
  intro lines
  induction lines with
  | nil => intro st n; exact ⟨st, rfl⟩
  | cons line rest ih =>
    intro st n
    simp only [processLines]
    by_cases h1 : pyStrip line = []
    · rw [if_pos h1]
      exact ih st (n + 1)
    · rw [if_neg h1]
      by_cases h2 : pyStartswith (pyStrip line) [';'] = true
      · rw [if_pos h2]
        obtain ⟨st1, hc⟩ := parse_comment_ok st (pyStrip line)
        rw [hc]
        exact ih st1 (n + 1)
      · rw [if_neg h2]
        by_cases h3 : pyStrip ((splitChar ';' (pyStrip line)).headD []) = []
        · rw [if_pos h3]
          exact ih st (n + 1)
        · rw [if_neg h3]
          obtain ⟨st1, hc⟩ :=
            process_command_ok st (pyStrip ((splitChar ';' (pyStrip line)).headD []))
          rw [hc]
          exact ih st1 (n + 1)

theorem processLines_ne_empty (lines : List (List Char)) (st : MachineState) (n : ℕ) :
    processLines st lines n ≠ Except.error GErr.emptyInput := by
  obtain ⟨st', h⟩ := processLines_ok lines st n
  rw [h]
  exact fun hh => Except.noConfusion hh

theorem params_last_wins (l : List (Char × List Char)) (m : List (Char × ℚ)) (x : Char) :
    alGet? (l.foldl (fun m q => alSet m q.1 ((pyFloat? q.2).getD 0)) m) x =
      match l.reverse.find? (fun q => q.1 == x) with
      | some r => some ((pyFloat? r.2).getD 0)
      | none => alGet? m x :=
  foldl_alSet_find (fun q => (pyFloat? q.2).getD 0) l m x

theorem alGet?_ensureLayer (layers : List (Int × List Pos)) (k : Int) :
    (alGet? (ensureLayer layers k) k).isSome = true := by
  unfold ensureLayer
  cases h : alGet? layers k with
  | some v => simp [h]
  | none => simp [h, alGet?_alSet]

theorem alGet?_appendPoint (layers : List (Int × List Pos)) (k : Int) (p : Pos) :
    alGet? (appendPoint layers k p) k = some ((alGet? layers k).getD [] ++ [p]) := by
  unfold appendPoint ensureLayer
  cases h : alGet? layers k with
  | some ps => simp [h, alGet?_alSet]
  | none => simp [h, alGet?_alSet]

theorem movementResult_eq (st : MachineState) (ps : List (Char × ℚ)) :
    movementResult st ps =
      if (moveKeys.foldl (moveAxis st ps) (applyF ps st.current_position)).X
            = st.current_position.X ∧
         (moveKeys.foldl (moveAxis st ps) (applyF ps st.current_position)).Y
            = st.current_position.Y ∧
         (moveKeys.foldl (moveAxis st ps) (applyF ps st.current_position)).Z
            = st.current_position.Z ∧
         (moveKeys.foldl (moveAxis st ps) (applyF ps st.current_position)).E
            = st.current_position.E
      then { st with
             current_position := moveKeys.foldl (moveAxis st ps) (applyF ps st.current_position) }
      else { st with
             current_position := moveKeys.foldl (moveAxis st ps) (applyF ps st.current_position)
             layers := appendPoint st.layers st.current_layer
               (moveKeys.foldl (moveAxis st ps) (applyF ps st.current_position)) } := by
  simp only [movementResult, applyF_X, applyF_Y, applyF_Z, applyF_E]
  generalize moveKeys.foldl (moveAxis st ps) (applyF ps st.current_position) = np
  by_cases hc : np.X = st.current_position.X ∧ np.Y = st.current_position.Y ∧
      np.Z = st.current_position.Z ∧ np.E = st.current_position.E
  · rw [if_pos hc, if_neg]
    push_neg
    exact hc
  · rw [if_neg hc, if_pos]
    by_contra hnd
    push_neg at hnd
    exact hc hnd

/-!  ## Claim theorems  -/

/-- C1: evaluation of the code at the failing input.  Under `M83`
(relative extrusion) and `G90` (absolute positioning), the source
resolves E absolutely whenever `absolute_positioning` holds (the
condition `absolute_positioning or (axis == "E" and absolute_extrusion)`),
so `G1 X10 E1` twice yields a single point with E = 1 and the second
command is a silent no-move — not points with E = 1 then E = 2 as the
claim (and the spec, which flags this divergence as the intended,
corrected semantics) states. -/
theorem claim1_extrusion_mode_eval :
    parse_gcode sampleRelExtrusion =
      Except.ok
        { current_position := ⟨10, 0, 0, 1, 0⟩
          absolute_positioning := true
          absolute_extrusion := false
          current_layer := 0
          metadata := []
          layers := [(0, [⟨10, 0, 0, 1, 0⟩])] } := by
  decide

/-- C3, counterexample: a whitespace-only input and a blank-line-only
input are not the empty string, so `if not gcode` does not fire and the
interpreter returns an empty result instead of raising the
empty-input error the claim requires. -/
theorem claim3_whitespace_counterexample :
    parse_gcode [' '] = Except.ok initState ∧
      parse_gcode ['\n'] = Except.ok initState := by
  constructor
  · decide
  · decide

/-- C3, amended: the empty-input error is raised exactly for the empty
string; every other input — whitespace-only inputs included — is
processed without it. -/
theorem claim3_empty_error_iff (g : List Char) :
    parse_gcode g = Except.error GErr.emptyInput ↔ g = [] := by
  constructor
  · intro h
    by_cases hg : g = []
    · exact hg
    · exfalso
      unfold parse_gcode at h
      rw [if_neg hg] at h
      exact processLines_ne_empty _ _ _ h
  · rintro rfl
    rfl

/-- C3 witness: the amended equivalence applied at the empty string. -/
theorem claim3_empty_error_iff_witness :
    parse_gcode [] = Except.error GErr.emptyInput :=
  (claim3_empty_error_iff []).2 rfl

/-- C5, counterexample: after `G1 X5`, the line `G28 X0` — a home
command with an axis argument — matches no dispatch arm (the `G28` test
is an exact string match), so X remains 5 instead of being reset to 0 as
the claim requires of every `G28` command. -/
theorem claim5_g28_args_counterexample :
    parse_gcode sampleG28Args =
        Except.ok ⟨⟨5, 0, 0, 0, 0⟩, true, true, 0, [], [(0, [⟨5, 0, 0, 0, 0⟩])]⟩ ∧
      (5 : ℚ) ≠ 0 := by
  constructor
  · decide
  · norm_num

theorem take_two_cons {a b : Char} (l : List Char) : (a :: b :: l).take 2 = [a, b] := rfl

theorem take_three_cons {a b c : Char} (l : List Char) :
    (a :: b :: c :: l).take 3 = [a, b, c] := rfl

/-- C5, amended: a bare `G28` resets X, Y, Z of the position to 0,
leaves E and F untouched, and emits no point (layers, metadata, modes and
layer counter unchanged); a `G28` followed by anything is a complete
no-op — the dispatcher ignores the whole line rather than ignoring the
axis arguments. -/
theorem claim5_g28_dispatch (st : MachineState) :
    _process_command st ['G', '2', '8'] =
        Except.ok
          { st with current_position := { st.current_position with X := 0, Y := 0, Z := 0 } } ∧
      ∀ args : List Char,
        _process_command st ('G' :: '2' :: '8' :: ' ' :: args) = Except.ok st := by
  constructor
  · rfl
  · intro args
    have hG0 : pyStartswith ('G' :: '2' :: '8' :: ' ' :: args) ['G', '0'] = false := by
      show (('G' :: '2' :: '8' :: ' ' :: args).take 2 == ['G', '0']) = false
      rw [take_two_cons]
      decide
    have hG1 : pyStartswith ('G' :: '2' :: '8' :: ' ' :: args) ['G', '1'] = false := by
      show (('G' :: '2' :: '8' :: ' ' :: args).take 2 == ['G', '1']) = false
      rw [take_two_cons]
      decide
    have hG92 : pyStartswith ('G' :: '2' :: '8' :: ' ' :: args) ['G', '9', '2'] = false := by
      show (('G' :: '2' :: '8' :: ' ' :: args).take 3 == ['G', '9', '2']) = false
      rw [take_three_cons]
      decide
    unfold _process_command
    rw [if_neg (by simp : ¬('G' :: '2' :: '8' :: ' ' :: args) = ['G', '9', '0'])]
    rw [if_neg (by simp : ¬('G' :: '2' :: '8' :: ' ' :: args) = ['G', '9', '1'])]
    rw [if_neg (by simp : ¬('G' :: '2' :: '8' :: ' ' :: args) = ['M', '8', '2'])]
    rw [if_neg (by simp : ¬('G' :: '2' :: '8' :: ' ' :: args) = ['M', '8', '3'])]
    rw [if_neg (by simp : ¬('G' :: '2' :: '8' :: ' ' :: args) = ['G', '2', '8'])]
    rw [if_neg (show ¬(pyStartswith ('G' :: '2' :: '8' :: ' ' :: args) ['G', '0']
          || pyStartswith ('G' :: '2' :: '8' :: ' ' :: args) ['G', '1']) = true by
        rw [hG0, hG1]; decide)]
    rw [if_neg (show ¬pyStartswith ('G' :: '2' :: '8' :: ' ' :: args) ['G', '9', '2'] = true by
        rw [hG92]; decide)]

/-- C6, counterexample: the source parses the field between the first
and second colon (`split(":")[1]`), not the remainder after the first
colon.  On `;LAYER:3:7` the remainder `3:7` is unparsable, so the claim
requires the layer to reset to 0; the code instead sets layer 3. -/
theorem claim6_second_field_counterexample :
    parse_gcode sampleLayerTwoColons =
        Except.ok ⟨⟨0, 0, 0, 0, 0⟩, true, true, 3, [], [(3, [])]⟩ ∧
      (3 : ℤ) ≠ 0 := by
  constructor
  · decide
  · norm_num

/-- C6, amended: for a line starting with `;LAYER:`, the interpreter
takes the field between the first and second colons (entry 1 of the
colon-split of the whole line), parses it as an integer with failure
recovered to 0, stores it as the current layer, and ensures a (possibly
empty) entry for that layer exists. -/
theorem claim6_layer_marker (st : MachineState) (line : List Char)
    (h : pyStartswith line [';', 'L', 'A', 'Y', 'E', 'R', ':'] = true) :
    ∃ seg, (splitChar ':' line).get? 1 = some seg ∧
      _parse_comment st line =
        Except.ok
          { st with current_layer := (pyInt? seg).getD 0
                    layers := ensureLayer st.layers ((pyInt? seg).getD 0) } ∧
      (alGet? (ensureLayer st.layers ((pyInt? seg).getD 0)) ((pyInt? seg).getD 0)).isSome
        = true := by
  have htake : line.take 7 = [';', 'L', 'A', 'Y', 'E', 'R', ':'] := by
    unfold pyStartswith at h
    simpa using h
  have hmem : ':' ∈ line := by
    have h7 : ':' ∈ line.take 7 := by
      rw [htake]
      decide
    exact List.take_subset 7 line h7
  have hlen := splitChar_len_two hmem
  unfold _parse_comment
  rw [if_pos h]
  cases hg : (splitChar ':' line).get? 1 with
  | none =>
    rw [List.get?_eq_none] at hg
    omega
  | some seg =>
    exact ⟨seg, rfl, rfl, alGet?_ensureLayer st.layers ((pyInt? seg).getD 0)⟩

/-- C6 witness: the amended statement applied at `;LAYER:42` from the
fresh state. -/
theorem claim6_layer_marker_witness :
    ∃ seg, (splitChar ':' sampleLayerLine).get? 1 = some seg ∧
      _parse_comment initState sampleLayerLine =
        Except.ok
          { initState with current_layer := (pyInt? seg).getD 0
                           layers := ensureLayer initState.layers ((pyInt? seg).getD 0) } ∧
      (alGet? (ensureLayer initState.layers ((pyInt? seg).getD 0)) ((pyInt? seg).getD 0)).isSome
        = true :=
  claim6_layer_marker initState sampleLayerLine (by decide)

/-- C9: the interpreter is a deterministic function of its input text
alone — two fresh runs on equal inputs produce equal results. -/
theorem claim9_deterministic (g1 g2 : List Char) (h : g1 = g2) :
    parse_gcode g1 = parse_gcode g2 := by
  rw [h]

/-- C9 witness: determinism applied at a concrete input. -/
theorem claim9_deterministic_witness :
    parse_gcode ['G', '1', ' ', 'X', '1'] = parse_gcode ['G', '1', ' ', 'X', '1'] :=
  claim9_deterministic ['G', '1', ' ', 'X', '1'] ['G', '1', ' ', 'X', '1'] rfl

/-- C10: every non-empty input is interpreted without any error — the
per-line error wrapper is unreachable, because every token captured by
the parameter scanner converts with `float(...)`, the layer-number parse
failure is recovered locally, and no other per-line operation can
fail. -/
theorem claim10_no_line_error (g : List Char) (h : g ≠ []) :
    ∃ st, parse_gcode g = Except.ok st := by
  unfold parse_gcode
  rw [if_neg h]
  exact processLines_ok _ _ _

/-- C10 witness: totality applied at a concrete input. -/
theorem claim10_no_line_error_witness :
    ∃ st, parse_gcode ['G', '1', ' ', 'X', '2'] = Except.ok st :=
  claim10_no_line_error ['G', '1', ' ', 'X', '2'] (by decide)

/-- C2: for every motion command, a point is appended exactly when the
candidate position differs from the preceding position on X, Y, Z or E —
an F-only change appends nothing — and an appended point is the
candidate snapshot itself, which carries the current F (the F parameter
if present, the old F otherwise); the candidate is committed as the new
position in both cases; and concretely `G1 F1200` then `G1 F1500` yields
zero points with final F = 1500. -/
theorem claim2_point_emission :
    (∀ (st : MachineState) (ps : List (Char × ℚ)),
      (movementResult st ps).current_position.F
          = (alGet? ps 'F').getD st.current_position.F ∧
      (movementResult st ps).layers =
        (if (movementResult st ps).current_position.X = st.current_position.X ∧
            (movementResult st ps).current_position.Y = st.current_position.Y ∧
            (movementResult st ps).current_position.Z = st.current_position.Z ∧
            (movementResult st ps).current_position.E = st.current_position.E
         then st.layers
         else appendPoint st.layers st.current_layer
                (movementResult st ps).current_position)) ∧
    (∀ (layers : List (Int × List Pos)) (k : Int) (p : Pos),
      alGet? (appendPoint layers k p) k = some ((alGet? layers k).getD [] ++ [p])) ∧
    parse_gcode sampleFOnly = Except.ok ⟨⟨0, 0, 0, 0, 1500⟩, true, true, 0, [], []⟩ := by
  refine ⟨?_, alGet?_appendPoint, by decide⟩
  intro st ps
  have hcp : (movementResult st ps).current_position
      = moveKeys.foldl (moveAxis st ps) (applyF ps st.current_position) := by
    rw [movementResult_eq]
    split
    · rfl
    · rfl
  constructor
  · rw [hcp, newPos_F, applyF_F]
  · by_cases hc :
      (moveKeys.foldl (moveAxis st ps) (applyF ps st.current_position)).X
          = st.current_position.X ∧
      (moveKeys.foldl (moveAxis st ps) (applyF ps st.current_position)).Y
          = st.current_position.Y ∧
      (moveKeys.foldl (moveAxis st ps) (applyF ps st.current_position)).Z
          = st.current_position.Z ∧
      (moveKeys.foldl (moveAxis st ps) (applyF ps st.current_position)).E
          = st.current_position.E
    · rw [movementResult_eq, if_pos hc]
      simp only [hcp, movementResult_eq, if_pos hc]
    · rw [movementResult_eq, if_neg hc]
      simp only [hcp, movementResult_eq, if_neg hc]

/-- C7: parameter extraction never fails, and the mapping it returns is
exactly the one built from the scanner's matches: looking up any letter
gives the parsed value of its last occurrence (`none` when the letter
never occurs), and every match pairs a letter from `{X,Y,Z,E,F,S}` with
a signed, optionally fractional decimal numeral; text matching nothing
is simply absent. -/
theorem claim7_param_extraction :
    (∀ (cmd : List Char) (x : Char),
      (_parse_params cmd).map (fun ps => alGet? ps x) =
        Except.ok
          (match (findAll cmd).reverse.find? (fun q => q.1 == x) with
            | some r => some ((pyFloat? r.2).getD 0)
            | none => none)) ∧
    (∀ (cmd : List Char) (q : Char × List Char), q ∈ findAll cmd →
      q.1 ∈ axisChars ∧ signedDecimalB q.2 = true) := by
  constructor
  · intro cmd x
    rw [parse_params_ok]
    simp only [Except.map]
    rw [params_last_wins]
    cases (findAll cmd).reverse.find? (fun q => q.1 == x) with
    | some r => rfl
    | none => rfl
  · intro cmd q hq
    obtain ⟨h1, h2, _⟩ := findAll_mem hq
    exact ⟨h1, h2⟩

/-- C7 witness: the characterization applied to `G1 X7`, whose scan
contains the match `('X', "7")`. -/
theorem claim7_param_extraction_witness :
    ('X', ['7']) ∈ findAll sampleParamCmd ∧
      (('X', ['7']).1 ∈ axisChars ∧ signedDecimalB ('X', ['7']).2 = true) :=
  ⟨by decide, claim7_param_extraction.2 sampleParamCmd ('X', ['7']) (by decide)⟩

/-- C8: a G92 command overwrites exactly the axes among `{X,Y,Z,E,F}`
present in its parameters with the parsed values, consulting neither
positioning nor extrusion mode, emits no point and touches nothing else;
and concretely `G92 X0 Y0` followed by `G1 X10` in absolute mode yields
exactly one point with X = 10 and Y = 0. -/
theorem claim8_set_position :
    (∀ (st : MachineState) (cmd : List Char) (ps : List (Char × ℚ)) (st' : MachineState),
      _parse_params cmd = Except.ok ps →
      _process_set_position st cmd = Except.ok st' →
      st'.layers = st.layers ∧ st'.metadata = st.metadata ∧
      st'.current_layer = st.current_layer ∧
      st'.absolute_positioning = st.absolute_positioning ∧
      st'.absolute_extrusion = st.absolute_extrusion ∧
      ∀ a ∈ posKeys,
        getAxis st'.current_position a =
          match ps.reverse.find? (fun q => q.1 == a) with
          | some r => r.2
          | none => getAxis st.current_position a) ∧
    parse_gcode sampleG92 =
      Except.ok ⟨⟨10, 0, 0, 0, 0⟩, true, true, 0, [], [(0, [⟨10, 0, 0, 0, 0⟩])]⟩ := by
  constructor
  · intro st cmd ps st' hps hrun
    unfold _process_set_position at hrun
    rw [hps] at hrun
    simp only [Except.map] at hrun
    injection hrun with hst
    subst hst
    refine ⟨rfl, rfl, rfl, rfl, rfl, ?_⟩
    intro a ha
    exact setPosFold_char ps st.current_position a ha
  · decide

/-- C8 witness: the characterization applied to `G92 X5` from a state in
relative positioning and relative extrusion mode with all axes at 1 —
the X axis is overwritten to 5 in spite of both modes. -/
theorem claim8_set_position_witness :
    getAxis
        (MachineState.mk ⟨5, 1, 1, 1, 1⟩ false false 7 [] []).current_position 'X' =
      match ([('X', (5 : ℚ))].reverse.find? (fun q => q.1 == 'X')) with
      | some r => r.2
      | none => getAxis (MachineState.mk ⟨1, 1, 1, 1, 1⟩ false false 7 [] []).current_position 'X' :=
  (claim8_set_position.1 (MachineState.mk ⟨1, 1, 1, 1, 1⟩ false false 7 [] [])
      sampleG92Cmd [('X', 5)] (MachineState.mk ⟨5, 1, 1, 1, 1⟩ false false 7 [] [])
      (by decide) (by decide)).2.2.2.2.2 'X' (by decide)

/-- C2 witness: the emission characterization applied at a concrete
state and parameter map. -/
theorem claim2_point_emission_witness :
    (movementResult initState [('X', (5 : ℚ))]).current_position.F
        = (alGet? [('X', (5 : ℚ))] 'F').getD initState.current_position.F ∧
      (movementResult initState [('X', (5 : ℚ))]).layers =
        (if (movementResult initState [('X', (5 : ℚ))]).current_position.X
              = initState.current_position.X ∧
            (movementResult initState [('X', (5 : ℚ))]).current_position.Y
              = initState.current_position.Y ∧
            (movementResult initState [('X', (5 : ℚ))]).current_position.Z
              = initState.current_position.Z ∧
            (movementResult initState [('X', (5 : ℚ))]).current_position.E
              = initState.current_position.E
         then initState.layers
         else appendPoint initState.layers initState.current_layer
                (movementResult initState [('X', (5 : ℚ))]).current_position) :=
  claim2_point_emission.1 initState [('X', (5 : ℚ))]

/-- C5 witness: the amended dispatch behaviour applied at the fresh
state, for the bare `G28` and for `G28 X0`. -/
theorem claim5_g28_dispatch_witness :
    _process_command initState ['G', '2', '8'] =
        Except.ok
          { initState with
            current_position := { initState.current_position with X := 0, Y := 0, Z := 0 } } ∧
      _process_command initState ('G' :: '2' :: '8' :: ' ' :: ['X', '0'])
        = Except.ok initState :=
  ⟨(claim5_g28_dispatch initState).1, (claim5_g28_dispatch initState).2 ['X', '0']⟩
